import Mathlib

/-!
# Verification of the sciwing/parsect data-alignment pipeline

This file is a shallow embedding, in Lean 4, of the data/label-alignment
pipeline of the `parsect` repository:

* `parsect/utils/science_ie_data_utils.py` — annotation loading, BILOU tag
  conversion (plain and sentence-wise), the CoNLL line format, and the
  conversion from BILOU tags back to character offsets;
* `parsect/datasets/classification/base_text_classification.py` — the
  dataset-type gate and the stratified train/valid/test split;
* `parsect/modules/embedders/bert_embedder.py` — the caller of
  `pack_to_length` (the packer itself is modelled from the spec, as its
  source `parsect/utils/common.py` is not among the given sources).

Modelling conventions:

* Python strings are embedded as `List Char`; Python `None`/exceptions are
  embedded with `Option`.
* The spaCy pipeline `nlp` is external to the repository: a spaCy document
  is embedded as an arbitrary list of `SpacyToken`s carrying exactly the
  attributes the repository reads (`text`, `idx`, `is_space`,
  `is_sent_start`).
* `spacy.gold.biluo_tags_from_offsets` and
  `spacy.gold.offsets_from_biluo_tags`, which the repository calls, are
  embedded following their spaCy 2.x sources.
* Python lists are mutable; the one place the repository relies on
  aliasing (`get_sentence_wise_bilou_lines` keeps appending to a list that
  has already been appended to `sentences`) is embedded with an explicit
  alias count, see `SentLoopState` below.
-/

namespace Parsect

/-- A spaCy token, with exactly the attributes the repository reads:
surface text, character start offset (`token.idx`), whether the token is
all whitespace (`token.is_space`), and whether it starts a sentence
(`token.is_sent_start`). -/
structure SpacyToken where
  text : List Char
  idx : Nat
  isSpace : Bool
  isSentStart : Bool
deriving DecidableEq

instance : Inhabited SpacyToken := ⟨⟨[], 0, false, false⟩⟩

/-- `token.idx + len(token)`: the character offset one past the token. -/
def SpacyToken.endIdx (t : SpacyToken) : Nat := t.idx + t.text.length

/-- The list `[s, s+1, ..., s+n-1]`, embedding Python `range(s, s+n)`. -/
def natSpan (s n : Nat) : List Nat :=
  match n with
  | 0 => []
  | n + 1 => s :: natSpan (s + 1) n

/-- An annotated entity as passed to `biluo_tags_from_offsets`:
`(start_char, end_char, label)`. -/
abbrev Entity := Nat × Nat × List Char

/-- Membership in spaCy's `entity_chars` set: character `c` lies inside
the character range of some entity. -/
def inEntityChars (entities : List Entity) (c : Nat) : Bool :=
  entities.any (fun e => decide (e.1 ≤ c) && decide (c < e.2.1))

/-- The per-token loop of `biluo_tags_from_offsets` that decides whether a
token shares at least one character with `entity_chars`. -/
def tokenOverlaps (entities : List Entity) (t : SpacyToken) : Bool :=
  (natSpan t.idx t.text.length).any (inEntityChars entities)

/-- spaCy's `starts` dict built by `{token.idx: token.i for token in doc}`,
then looked up at `c`: the last token index whose `idx` equals `c`
(later dict writes win). -/
def lookupStart (doc : List SpacyToken) (c : Nat) : Option Nat :=
  (List.range doc.length).foldl
    (fun acc i => if (doc.getD i default).idx = c then some i else acc) none

/-- spaCy's `ends` dict built by `{token.idx + len(token): token.i}`,
looked up at `c`. -/
def lookupEnd (doc : List SpacyToken) (c : Nat) : Option Nat :=
  (List.range doc.length).foldl
    (fun acc i => if (doc.getD i default).endIdx = c then some i else acc) none

/-- BILOU tag constructors. -/
def bTag (label : List Char) : List Char := 'B' :: '-' :: label

def iTag (label : List Char) : List Char := 'I' :: '-' :: label

def lTag (label : List Char) : List Char := 'L' :: '-' :: label

def uTag (label : List Char) : List Char := 'U' :: '-' :: label

/-- The entity-type-qualified outside tag `O-<entity>`. -/
def oTagged (entity : List Char) : List Char := 'O' :: '-' :: entity

/-- `for i in range(s, s+m): biluo[i] = v`, as used for the `I-` run of
`biluo_tags_from_offsets`. -/
def setSpan (biluo : List (List Char)) (s m : Nat) (v : List Char) :
    List (List Char) :=
  match m with
  | 0 => biluo
  | m + 1 => setSpan (biluo.set s v) (s + 1) m v

/-- One iteration of the entity loop of `biluo_tags_from_offsets`: if both
the start and the end character of the entity align with token boundaries,
write the `U-` or `B-`/`I-`/`L-` pattern over the covered token span,
otherwise leave the tags unchanged. -/
def assignEntity (doc : List SpacyToken) (biluo : List (List Char))
    (ent : Entity) : List (List Char) :=
  match lookupStart doc ent.1, lookupEnd doc ent.2.1 with
  | some st, some en =>
      if st = en then biluo.set st (uTag ent.2.2)
      else
        (setSpan (biluo.set st (bTag ent.2.2)) (st + 1) (en - (st + 1))
          (iTag ent.2.2)).set en (lTag ent.2.2)
  | _, _ => biluo

/-- `spacy.gold.biluo_tags_from_offsets doc entities` (spaCy 2.x, with the
default `missing="O"`): start from all `"-"`, write the BILOU pattern for
every boundary-aligned entity, then overwrite with `"O"` every token that
shares no character with any entity range. -/
def biluoTagsFromOffsets (doc : List SpacyToken) (entities : List Entity) :
    List (List Char) :=
  let assigned := entities.foldl (assignEntity doc) (doc.map (fun _ => ['-']))
  List.zipWith (fun t tag => if tokenOverlaps entities t then tag else ['O'])
    doc assigned

/-- Python `tag.startswith(c)` for a one-character pattern. -/
def headIs (t : List Char) (c : Char) : Bool :=
  match t with
  | [] => false
  | x :: _ => x = c

/-- The tag rewrite both converters apply:
`f"O-{entity}" if tag.startswith("O") or tag == "-" else tag`. -/
def mapTag (entity : List Char) (tag : List Char) : List Char :=
  if headIs tag 'O' = true ∨ tag = ['-'] then oTagged entity else tag

/-- The tag list produced inside `_get_bilou_lines_for_entity` (and
identically inside `get_sentence_wise_bilou_lines`): the raw spaCy BILOU
tags with `O` and `-` replaced by `O-<entity>`. -/
def mappedTags (doc : List SpacyToken) (entities : List Entity)
    (entity : List Char) : List (List Char) :=
  (biluoTagsFromOffsets doc entities).map (mapTag entity)

/-- One CoNLL line,
`f"{token.text}{sep}{sep.join([tag] * 3)}"` with `sep = " "`. -/
def bilouLine (t : SpacyToken) (tag : List Char) : List Char :=
  t.text ++ ' ' :: (tag ++ ' ' :: (tag ++ ' ' :: tag))

/-- The loop tail of `_get_bilou_lines_for_entity`: zip tokens with tags,
drop whitespace tokens, and format each remaining pair as a CoNLL line. -/
def bilouLinesForEntity (doc : List SpacyToken) (entities : List Entity)
    (entity : List Char) : List (List Char) :=
  ((doc.zip (mappedTags doc entities entity)).filter
      (fun p => !p.1.isSpace)).map (fun p => bilouLine p.1 p.2)

/-! ## Length facts for the BILOU conversion -/

lemma setSpan_length : ∀ (m s : Nat) (b : List (List Char)) (v : List Char),
    (setSpan b s m v).length = b.length := by
  intro m
  induction m with
  | zero => intro s b v; rfl
  | succ m ih => intro s b v; simp [setSpan, ih]

lemma assignEntity_length (doc : List SpacyToken) (b : List (List Char))
    (ent : Entity) : (assignEntity doc b ent).length = b.length := by
  unfold assignEntity
  rcases lookupStart doc ent.1 with _ | st <;>
    rcases lookupEnd doc ent.2.1 with _ | en <;> simp
  split <;> simp [setSpan_length]

lemma foldl_assignEntity_length (doc : List SpacyToken) :
    ∀ (es : List Entity) (b : List (List Char)),
      (es.foldl (assignEntity doc) b).length = b.length := by
  intro es
  induction es with
  | nil => intro b; rfl
  | cons e es ih => intro b; simpa [assignEntity_length] using ih (assignEntity doc b e)

lemma biluoTagsFromOffsets_length (doc : List SpacyToken)
    (entities : List Entity) :
    (biluoTagsFromOffsets doc entities).length = doc.length := by
  simp [biluoTagsFromOffsets, foldl_assignEntity_length]

lemma mappedTags_length (doc : List SpacyToken) (entities : List Entity)
    (entity : List Char) :
    (mappedTags doc entities entity).length = doc.length := by
  simp [mappedTags, biluoTagsFromOffsets_length]

/-! ## Behaviour of the `O`/`-` rewrite (claim C2) -/

lemma mapTag_ne_bare_O (entity r : List Char) : mapTag entity r ≠ ['O'] := by
  unfold mapTag
  split
  · simp [oTagged]
  · rename_i h
    intro hr
    subst hr
    simp [headIs] at h

lemma zipWith_getElem? {α β γ : Type} (f : α → β → γ) :
    ∀ (l1 : List α) (l2 : List β) (i : Nat),
      (List.zipWith f l1 l2)[i]? =
        match l1[i]?, l2[i]? with
        | some a, some b => some (f a b)
        | _, _ => none := by
  intro l1
  induction l1 with
  | nil => intro l2 i; simp
  | cons a l1 ih =>
      intro l2 i
      cases l2 with
      | nil => simp
      | cons b l2 =>
          cases i with
          | zero => simp
          | succ i => simpa using ih l2 i

lemma biluoTagsFromOffsets_getElem? (doc : List SpacyToken)
    (entities : List Entity) (i : Nat) (hi : i < doc.length) :
    (biluoTagsFromOffsets doc entities)[i]? =
      some (if tokenOverlaps entities doc[i] then
              (entities.foldl (assignEntity doc)
                (doc.map (fun _ => ['-']))).getD i ['-']
            else ['O']) := by
  have hlen : (entities.foldl (assignEntity doc)
      (doc.map (fun _ => ['-']))).length = doc.length := by
    simp [foldl_assignEntity_length]
  have hi2 : i < (entities.foldl (assignEntity doc)
      (doc.map (fun _ => ['-']))).length := by omega
  rw [biluoTagsFromOffsets, zipWith_getElem?]
  rw [List.getElem?_eq_getElem hi, List.getElem?_eq_getElem hi2]
  rw [List.getD_eq_getElem?_getD, List.getElem?_eq_getElem hi2]
  rfl

lemma mapTag_O (entity : List Char) : mapTag entity ['O'] = oTagged entity := by
  simp [mapTag, headIs]

lemma mapTag_dash (entity : List Char) : mapTag entity ['-'] = oTagged entity := by
  simp [mapTag]

lemma mapTag_keep (entity r : List Char) (h1 : headIs r 'O' = false)
    (h2 : r ≠ ['-']) : mapTag entity r = r := by
  simp [mapTag, h1, h2]

lemma mappedTags_getElem?_of_raw (doc : List SpacyToken)
    (entities : List Entity) (entity : List Char) (i : Nat) (r : List Char)
    (hr : (biluoTagsFromOffsets doc entities)[i]? = some r) :
    (mappedTags doc entities entity)[i]? = some (mapTag entity r) := by
  simp [mappedTags, List.getElem?_map, hr]

/-- **C2.** For every document, annotation list and entity type, and every
token position `i`: a token that overlaps no annotation character range is
tagged `O-<entity>`; the emitted tag is never the bare `O`; a token whose
raw spaCy tag is the alignment-failure marker `-` is also tagged
`O-<entity>`; and a token whose raw spaCy tag is anything else (i.e. a
`B-`/`I-`/`L-`/`U-` tag from an overlapping annotation) keeps that tag
unchanged. -/
theorem bilou_outside_tags_qualified (doc : List SpacyToken)
    (entities : List Entity) (entity : List Char) (i : Nat)
    (hi : i < doc.length) :
    (tokenOverlaps entities doc[i] = false →
        (mappedTags doc entities entity)[i]? = some (oTagged entity))
    ∧ (mappedTags doc entities entity)[i]? ≠ some ['O']
    ∧ ((biluoTagsFromOffsets doc entities)[i]? = some ['-'] →
        (mappedTags doc entities entity)[i]? = some (oTagged entity))
    ∧ (∀ raw, (biluoTagsFromOffsets doc entities)[i]? = some raw →
        headIs raw 'O' = false → raw ≠ ['-'] →
        (mappedTags doc entities entity)[i]? = some raw) := by
  refine ⟨?_, ?_, ?_, ?_⟩
  · intro hov
    have h := biluoTagsFromOffsets_getElem? doc entities i hi
    rw [hov] at h
    simp only [Bool.false_eq_true, if_false] at h
    rw [mappedTags_getElem?_of_raw doc entities entity i _ h, mapTag_O]
  · rcases h : (biluoTagsFromOffsets doc entities)[i]? with _ | r
    · simp [mappedTags, List.getElem?_map, h]
    · rw [mappedTags_getElem?_of_raw doc entities entity i r h]
      intro hc
      exact mapTag_ne_bare_O entity r (Option.some.inj hc)
  · intro h
    rw [mappedTags_getElem?_of_raw doc entities entity i _ h, mapTag_dash]
  · intro raw h h1 h2
    rw [mappedTags_getElem?_of_raw doc entities entity i raw h,
      mapTag_keep entity raw h1 h2]

/-- The "AI is useful." scenario document from the spec, tokenized with
character offsets. -/
def docAI : List SpacyToken :=
  [⟨"AI".data, 0, false, false⟩, ⟨"is".data, 3, false, false⟩,
   ⟨"useful".data, 6, false, false⟩, ⟨".".data, 12, false, false⟩]

theorem bilou_outside_tags_qualified_witness :
    tokenOverlaps [(0, 2, "Task".data)] docAI[1] = false
    ∧ (mappedTags docAI [(0, 2, "Task".data)] "Task".data)[1]? =
        some (oTagged ("Task".data))
    ∧ (mappedTags docAI [(0, 2, "Task".data)] "Task".data)[1]? ≠ some ['O'] := by
  have h := bilou_outside_tags_qualified docAI [(0, 2, "Task".data)]
    "Task".data 1 (by decide)
  exact ⟨by decide, h.1 (by decide), h.2.1⟩

/-! ## Sentence-wise BILOU lines (`get_sentence_wise_bilou_lines`)

Python lists are mutable objects.  In `get_sentence_wise_bilou_lines`,
when a sentence-boundary token is whitespace the code appends
`current_sent` to `sentences` but does *not* rebind `current_sent`; every
later `current_sent.append(...)` therefore also mutates the list object
already stored in `sentences`, and the next `sentences.append` stores the
very same object a second time.  The state below makes that sharing
explicit: `aliasCount` is the number of trailing elements of `sentences`
that are the same Python list object as `currentSent`. -/

structure SentLoopState where
  sentences : List (List (List Char))
  currentSent : List (List Char)
  aliasCount : Nat
deriving DecidableEq

/-- One iteration of the `for tag, token in zip(tags[1:], doc[1:])` loop
of `get_sentence_wise_bilou_lines`, acting on a `(tag, token)` pair. -/
def sentStep (st : SentLoopState) (p : List Char × SpacyToken) :
    SentLoopState :=
  if p.2.isSentStart then
    if p.2.isSpace then
      ⟨st.sentences ++ [st.currentSent], st.currentSent, st.aliasCount + 1⟩
    else
      ⟨st.sentences ++ [st.currentSent], [bilouLine p.2 p.1], 0⟩
  else
    if p.2.isSpace then st
    else
      let cur := st.currentSent ++ [bilouLine p.2 p.1]
      ⟨st.sentences.take (st.sentences.length - st.aliasCount) ++
          List.replicate st.aliasCount cur, cur, st.aliasCount⟩

/-- `get_sentence_wise_bilou_lines`, given the tokenized document and the
annotation entities.  Returns `none` for an empty document (the Python
code indexes `doc[0]` and would raise `IndexError`).  The closing
`assert len(sentences) == len(list(doc.sents))` of the source compares two
quantities that are equal by construction (one sentence is appended per
sentence start) and is not modelled. -/
def get_sentence_wise_bilou_lines (doc : List SpacyToken)
    (entities : List Entity) (entityType : List Char) :
    Option (List (List (List Char))) :=
  match doc, mappedTags doc entities entityType with
  | [], _ => none
  | t0 :: rest, tag0 :: tagsRest =>
      let init : SentLoopState :=
        ⟨[], if t0.isSpace then [] else [bilouLine t0 tag0], 0⟩
      let final := (tagsRest.zip rest).foldl sentStep init
      some (final.sentences ++ [final.currentSent])
  | _ :: _, [] => none

/-- A one-line document whose second token is a whitespace token marked as
a sentence start — the situation the `if not token.is_space` guard of the
source anticipates. -/
def docNl : List SpacyToken :=
  [⟨"a".data, 0, false, false⟩, ⟨"\n".data, 1, true, true⟩]

/-- **C1** (failing input).  On `docNl` with no annotations, plain mode
emits the single non-whitespace token exactly once, but sentence-wise
mode emits the same tagged line in *two* sentences: at the whitespace
sentence boundary `current_sent` is appended to `sentences` without being
rebound, and the final `sentences.append(current_sent)` appends the same
list object again.  The output therefore does not consist of the
non-whitespace tokens exactly once, contradicting the claim. -/
theorem sentence_wise_duplicates_line :
    get_sentence_wise_bilou_lines docNl [] "Task".data =
      some [[bilouLine docNl[0] (oTagged ("Task".data))],
            [bilouLine docNl[0] (oTagged ("Task".data))]]
    ∧ bilouLinesForEntity docNl [] "Task".data =
      [bilouLine docNl[0] (oTagged ("Task".data))] := by decide

lemma sentStep_fold_no_boundary :
    ∀ (tags : List (List Char)) (toks : List SpacyToken),
      (∀ t ∈ toks, t.isSentStart = false) →
      ∀ (sents : List (List (List Char))) (cur : List (List Char)),
      (tags.zip toks).foldl sentStep ⟨sents, cur, 0⟩ =
        ⟨sents,
         cur ++ ((toks.zip tags).filter (fun p => !p.1.isSpace)).map
           (fun p => bilouLine p.1 p.2),
         0⟩ := by
  intro tags
  induction tags with
  | nil => intro toks h sents cur; simp
  | cons tg tags ih =>
      intro toks h sents cur
      cases toks with
      | nil => simp
      | cons tk toks =>
          have hk : tk.isSentStart = false := h tk (by simp)
          have hrest : ∀ t ∈ toks, t.isSentStart = false := fun t ht =>
            h t (by simp [ht])
          by_cases hs : tk.isSpace
          · simp only [List.zip_cons_cons, List.foldl_cons, sentStep, hk,
              Bool.false_eq_true, if_false, hs, if_true]
            rw [ih toks hrest sents cur]
            simp [hs]
          · simp only [List.zip_cons_cons, List.foldl_cons, sentStep, hk,
              Bool.false_eq_true, if_false, hs]
            simp only [List.take_length, Nat.sub_zero, List.replicate_zero,
              List.append_nil]
            rw [ih toks hrest sents (cur ++ [bilouLine tk tg])]
            simp [hs]

/-- **C8.** In sentence-wise mode, a non-empty document in which no token
after the first is a sentence start yields exactly one sentence, and that
sentence consists of exactly the plain-mode BILOU lines of the whole
document (all its non-whitespace tokens, in order). -/
theorem sentence_wise_single_sentence (doc : List SpacyToken)
    (entities : List Entity) (entityType : List Char) (hne : doc ≠ [])
    (hnb : ∀ t ∈ doc.tail, t.isSentStart = false) :
    get_sentence_wise_bilou_lines doc entities entityType =
      some [bilouLinesForEntity doc entities entityType] := by
  cases doc with
  | nil => exact absurd rfl hne
  | cons t0 rest =>
      have hlen : (mappedTags (t0 :: rest) entities entityType).length =
          (t0 :: rest).length := mappedTags_length _ _ _
      rcases htags : mappedTags (t0 :: rest) entities entityType with _ | ⟨tag0, tagsRest⟩
      · rw [htags] at hlen; simp at hlen
      · simp only [get_sentence_wise_bilou_lines, htags]
        have hnb2 : ∀ t ∈ rest, t.isSentStart = false := by
          simpa using hnb
        rw [sentStep_fold_no_boundary tagsRest rest hnb2]
        simp only [bilouLinesForEntity, htags, List.zip_cons_cons,
          List.nil_append]
        by_cases h0 : t0.isSpace
        · simp [h0]
        · simp [h0]

theorem sentence_wise_single_sentence_witness :
    get_sentence_wise_bilou_lines docAI [(0, 2, "Task".data)] "Task".data =
      some [bilouLinesForEntity docAI [(0, 2, "Task".data)] "Task".data] :=
  sentence_wise_single_sentence docAI [(0, 2, "Task".data)] ("Task".data)
    (by decide) (by decide)

/-! ## `BaseTextClassification.__init__` (claim C9) -/

/-- The configuration state stored by `BaseTextClassification.__init__`
before the dataset-type assertion runs.  The tokenizer objects and the
`wasabi.Printer` are external collaborators and are not modelled; the
float-typed fractions are embedded as rationals. -/
structure BaseTextClassification where
  filename : List Char
  dataset_type : List Char
  max_num_words : Nat
  max_length : Nat
  store_location : List Char
  debug : Bool
  debug_dataset_proportion : ℚ
  embedding_type : Option (List Char)
  embedding_dimension : Option Nat
  start_token : List Char
  end_token : List Char
  pad_token : List Char
  unk_token : List Char
  train_size : ℚ
  validation_size : ℚ
  test_size : ℚ
deriving DecidableEq

/-- `self.allowable_dataset_types = ["train", "valid", "test"]`. -/
def allowable_dataset_types : List (List Char) :=
  ["train".data, "valid".data, "test".data]

/-- `BaseTextClassification.__init__`: stores its parameters, then
`assert self.dataset_type in self.allowable_dataset_types`.  A failing
assertion raises `AssertionError`, so no object is produced (`none`). -/
def mkBaseTextClassification (filename dataset_type : List Char)
    (max_num_words max_length : Nat) (store_location : List Char)
    (debug : Bool) (debug_dataset_proportion : ℚ)
    (embedding_type : Option (List Char)) (embedding_dimension : Option Nat)
    (start_token end_token pad_token unk_token : List Char)
    (train_size validation_size test_size : ℚ) :
    Option BaseTextClassification :=
  let s : BaseTextClassification :=
    ⟨filename, dataset_type, max_num_words, max_length, store_location,
     debug, debug_dataset_proportion, embedding_type, embedding_dimension,
     start_token, end_token, pad_token, unk_token, train_size,
     validation_size, test_size⟩
  if s.dataset_type ∈ allowable_dataset_types then some s else none

/-- **C9.** Construction succeeds exactly when `dataset_type` is one of
`"train"`, `"valid"`, `"test"`; for any other value the assertion fires
and no dataset state is produced. -/
theorem dataset_type_gate (filename dataset_type : List Char)
    (max_num_words max_length : Nat) (store_location : List Char)
    (debug : Bool) (debug_dataset_proportion : ℚ)
    (embedding_type : Option (List Char)) (embedding_dimension : Option Nat)
    (start_token end_token pad_token unk_token : List Char)
    (train_size validation_size test_size : ℚ) :
    (mkBaseTextClassification filename dataset_type max_num_words max_length
        store_location debug debug_dataset_proportion embedding_type
        embedding_dimension start_token end_token pad_token unk_token
        train_size validation_size test_size).isSome = true ↔
      dataset_type ∈ allowable_dataset_types := by
  unfold mkBaseTextClassification
  dsimp only
  split <;> rename_i h <;> simp [h]

theorem dataset_type_gate_witness :
    (mkBaseTextClassification [] "train".data 0 0 [] false 0 none none
        [] [] [] [] 0 0 0).isSome = true
    ∧ (mkBaseTextClassification [] "dev".data 0 0 [] false 0 none none
        [] [] [] [] 0 0 0).isSome = false := by
  constructor
  · exact (dataset_type_gate [] "train".data 0 0 [] false 0 none none
      [] [] [] [] 0 0 0).mpr (by decide)
  · cases h3 : (mkBaseTextClassification [] "dev".data 0 0 [] false 0 none
        none [] [] [] [] 0 0 0).isSome with
    | false => rfl
    | true =>
        have h2 := (dataset_type_gate [] "dev".data 0 0 [] false 0 none none
          [] [] [] [] 0 0 0).mp h3
        exact absurd h2 (by decide)

/-! ## `pack_to_length` (claim C5) -/

/-- Modelled from the spec: `pack_to_length` lives in
`parsect/utils/common.py`, which is not among the given sources (only its
caller `BertEmbedder.forward` is).  Following the spec's words: when
`add_start_end_token` is true the start/end markers are inserted before
the truncation/padding accounting is finalized and count toward
`max_length`; a sequence longer than `max_length` is truncated from the
end (earliest tokens kept); a shorter one is right-padded with
`pad_token`; the output length is always exactly `max_length`. -/
def pack_to_length (tokenized_text : List (List Char)) (max_length : Nat)
    (pad_token : List Char) (add_start_end_token : Bool)
    (start_token end_token : List Char) : List (List Char) :=
  let withMarkers :=
    if add_start_end_token then start_token :: tokenized_text ++ [end_token]
    else tokenized_text
  let truncated := withMarkers.take max_length
  truncated ++ List.replicate (max_length - truncated.length) pad_token

/-- **C5.** `pack_to_length` always returns exactly `max_length` tokens;
without markers a long sequence is truncated from the end (earliest
tokens kept) and a short one right-padded with the pad token; with
markers, the start/end tokens count toward `max_length`. -/
theorem pack_to_length_spec (t : List (List Char)) (L : Nat)
    (pad s e : List Char) :
    (∀ flag, (pack_to_length t L pad flag s e).length = L)
    ∧ (L ≤ t.length → pack_to_length t L pad false s e = t.take L)
    ∧ (t.length ≤ L →
        pack_to_length t L pad false s e =
          t ++ List.replicate (L - t.length) pad)
    ∧ (t.length + 2 ≤ L →
        pack_to_length t L pad true s e =
          s :: t ++ [e] ++ List.replicate (L - (t.length + 2)) pad) := by
  refine ⟨?_, ?_, ?_, ?_⟩
  · intro flag
    unfold pack_to_length
    cases flag <;> simp [List.length_take]
  · intro h
    unfold pack_to_length
    simp [List.length_take, Nat.min_eq_left h, Nat.sub_self]
  · intro h
    unfold pack_to_length
    dsimp only
    rw [if_neg (by simp), List.take_of_length_le h]
  · intro h
    unfold pack_to_length
    dsimp only
    rw [if_pos rfl]
    have hlen : (s :: t ++ [e]).length = t.length + 2 := by simp
    rw [List.take_of_length_le (by rw [hlen]; exact h), hlen]

theorem pack_to_length_spec_witness :
    (pack_to_length [['a'], ['b'], ['c']] 5 ['p'] false ['s'] ['e']).length = 5
    ∧ pack_to_length [['a'], ['b'], ['c']] 2 ['p'] false ['s'] ['e'] =
        [['a'], ['b']]
    ∧ pack_to_length [['a'], ['b'], ['c']] 5 ['p'] false ['s'] ['e'] =
        [['a'], ['b'], ['c'], ['p'], ['p']]
    ∧ pack_to_length [['a'], ['b'], ['c']] 6 ['p'] true ['s'] ['e'] =
        [['s'], ['a'], ['b'], ['c'], ['e'], ['p']] := by
  refine ⟨(pack_to_length_spec [['a'], ['b'], ['c']] 5 ['p'] ['s'] ['e']).1 false,
    ?_, ?_, ?_⟩
  · rw [(pack_to_length_spec [['a'], ['b'], ['c']] 2 ['p'] ['s'] ['e']).2.1
      (by decide)]
    rfl
  · rw [(pack_to_length_spec [['a'], ['b'], ['c']] 5 ['p'] ['s'] ['e']).2.2.1
      (by decide)]
    rfl
  · rw [(pack_to_length_spec [['a'], ['b'], ['c']] 6 ['p'] ['s'] ['e']).2.2.2
      (by decide)]
    rfl

/-! ## `_get_annotations_for_entity` (claim C3) -/

/-- Python `str.split` against a separator predicate: non-collapsing,
empty fields kept. -/
def pySplitPred (p : Char → Bool) : List Char → List (List Char)
  | [] => [[]]
  | c :: cs =>
      if p c then [] :: pySplitPred p cs
      else
        match pySplitPred p cs with
        | [] => [[c]]
        | f :: rest => (c :: f) :: rest

/-- Python `line.split("\t")` (one-character separator). -/
def pySplitChar (sep : Char) (l : List Char) : List (List Char) :=
  pySplitPred (fun c => c == sep) l

/-- Python `s.split()` with no argument: split on whitespace runs,
discarding empty fields. -/
def pySplitWs (l : List Char) : List (List Char) :=
  (pySplitPred Char.isWhitespace l).filter (fun f => decide (f ≠ []))

/-- Python `str.strip()`: drop leading and trailing whitespace. -/
def pyStrip (l : List Char) : List Char :=
  ((l.dropWhile Char.isWhitespace).reverse.dropWhile Char.isWhitespace).reverse

/-- Python `str.lower()` (ASCII case folding suffices for the tags and
entity names involved). -/
def pyLower (l : List Char) : List Char := l.map Char.toLower

/-- Digits of Python `int(s)`: at least one decimal digit (PEP 515
underscores are not modelled; the fields come from `str.split()` and so
contain no whitespace). -/
def parseDigits (l : List Char) : Option Nat :=
  match l with
  | [] => none
  | ds =>
      if ds.all Char.isDigit then
        some (ds.foldl (fun n c => 10 * n + (c.toNat - '0'.toNat)) 0)
      else none

/-- Python `int(s)` on a whitespace-free field: optional sign followed by
digits; anything else raises `ValueError`, embedded as `none`. -/
def parsePyInt (l : List Char) : Option Int :=
  match l with
  | '+' :: ds => (parseDigits ds).map (fun n => (n : Int))
  | '-' :: ds => (parseDigits ds).map (fun n => -(n : Int))
  | ds => (parseDigits ds).map (fun n => (n : Int))

/-- One brat-style annotation as loaded by `_get_annotations_for_entity`. -/
structure Annotation where
  start : Int
  end_ : Int
  words : List Char
  entity_number : List Char
  tag : List Char
deriving DecidableEq

/-- The line loop of `_get_annotations_for_entity`, over the lines of the
`.ann` file.  A line is parsed further only when, after stripping, it
starts with `"T"` and has exactly three tab-separated fields; a middle
field without exactly three whitespace-separated subfields is skipped
with a warning; `int(start)`/`int(end)` raising `ValueError` propagates
and aborts the whole load (`none`); the annotation is kept only when its
tag matches the requested entity case-insensitively.  Warnings are
printed, not returned, and are not modelled. -/
def annotationsForEntity : List (List Char) → List Char →
    Option (List Annotation)
  | [], _ => some []
  | line :: rest, entity =>
      if headIs (pyStrip line) 'T' = true ∧ (pySplitChar '\t' line).length = 3
      then
        match pySplitChar '\t' line with
        | [entity_number, tag_start_end, words] =>
            match pySplitWs tag_start_end with
            | [tag, startF, endF] =>
                match parsePyInt startF, parsePyInt endF with
                | some s, some e =>
                    if pyLower tag = pyLower entity then
                      (annotationsForEntity rest entity).map
                        (fun as => ⟨s, e, words, entity_number, tag⟩ :: as)
                    else annotationsForEntity rest entity
                | _, _ => none
            | _ => annotationsForEntity rest entity
        | _ => annotationsForEntity rest entity
      else annotationsForEntity rest entity

/-- A line that passes both format checks but has a non-integer start
offset: `int("abc")` raises `ValueError`. -/
def annLineBadInt : List Char := "T1\tTask abc 5\tbad".data

/-- A perfectly well-formed annotation line for entity `Task`. -/
def annLineGood : List Char := "T2\tTask 0 3\tgood".data

/-- **C3** (counterexample).  The presence of a line whose offset field is
not an integer aborts the whole load: the well-formed `Task` line after
it is *not* returned, although on its own it parses fine.  This refutes
the claim that no malformed line aborts the load of the rest of the
file. -/
theorem annotations_malformed_int_aborts :
    annotationsForEntity [annLineBadInt, annLineGood] "Task".data = none
    ∧ annotationsForEntity [annLineGood] "Task".data =
        some [⟨0, 3, "good".data, "T2".data, "Task".data⟩] := by decide

/-- **C3** (amended).  Lines that fail the structural checks (strip-prefix
`"T"` plus exactly three tab fields, then exactly three space-separated
subfields in the middle field) are skipped and loading continues; every
line passing the checks with integer offsets and a matching tag is
returned as an annotation.  (A line passing the structural checks whose
offsets are not integers aborts the load — see the counterexample.) -/
theorem annotations_skip_and_collect (line : List Char)
    (rest : List (List Char)) (entity : List Char) :
    (¬(headIs (pyStrip line) 'T' = true ∧
        (pySplitChar '\t' line).length = 3) →
      annotationsForEntity (line :: rest) entity =
        annotationsForEntity rest entity)
    ∧ (∀ en tse w, pySplitChar '\t' line = [en, tse, w] →
        headIs (pyStrip line) 'T' = true →
        (pySplitWs tse).length ≠ 3 →
        annotationsForEntity (line :: rest) entity =
          annotationsForEntity rest entity)
    ∧ (∀ en tse w tag startF endF s e,
        pySplitChar '\t' line = [en, tse, w] →
        headIs (pyStrip line) 'T' = true →
        pySplitWs tse = [tag, startF, endF] →
        parsePyInt startF = some s → parsePyInt endF = some e →
        pyLower tag = pyLower entity →
        annotationsForEntity (line :: rest) entity =
          (annotationsForEntity rest entity).map
            (fun as => ⟨s, e, w, en, tag⟩ :: as)) := by
  refine ⟨?_, ?_, ?_⟩
  · intro h
    rw [annotationsForEntity, if_neg h]
  · intro en tse w hsplit hT hws
    rw [annotationsForEntity, if_pos ⟨hT, by rw [hsplit]; rfl⟩]
    rw [hsplit]
    rcases hw : pySplitWs tse with _ | ⟨a, _ | ⟨b, _ | ⟨c, _ | ⟨d, l⟩⟩⟩⟩ <;>
      simp_all
  · intro en tse w tag startF endF s e hsplit hT hws hs he htag
    rw [annotationsForEntity, if_pos ⟨hT, by rw [hsplit]; rfl⟩]
    rw [hsplit]
    simp only [hws, hs, he, if_pos htag]

theorem annotations_skip_and_collect_witness :
    annotationsForEntity ["no tabs here".data, annLineGood] "Task".data =
      annotationsForEntity [annLineGood] "Task".data
    ∧ annotationsForEntity [annLineGood] "Task".data =
        (annotationsForEntity ([] : List (List Char)) "Task".data).map
          (fun as => ⟨0, 3, "good".data, "T2".data, "Task".data⟩ :: as) := by
  constructor
  · exact (annotations_skip_and_collect ("no tabs here".data) [annLineGood]
      "Task".data).1 (by decide)
  · exact (annotations_skip_and_collect annLineGood [] "Task".data).2.2
      ("T2".data) ("Task 0 3".data) ("good".data) ("Task".data) ("0".data)
      ("3".data) 0 3 (by decide) (by decide) (by decide) (by decide)
      (by decide) (by decide)

/-! ## `get_train_valid_test_stratified_split` (claims C6, C7)

The two `StratifiedShuffleSplit(n_splits=1, ..., random_state=1729)`
instances are external scikit-learn objects; per the scikit-learn
contract, `splitter.split(X, y)` depends only on the number of samples
`len(X)`, the label array `y`, and the fixed `random_state`, so each is
modelled by an abstract function from `(n_samples, labels)` to the index
pair of its single split.  The `np.random.rand(n)` feature arrays are
draws from numpy's global generator, modelled by `rand` applied to an
explicit generator state; their values are only ever consumed through the
sample count. -/

/-- `BaseTextClassification.get_train_valid_test_stratified_split`.
The two `assert` statements are embedded as `none` on failure; index
lookups `lines[idx]` are embedded with `getD` (a splitter honouring its
contract only produces in-range indices). -/
def get_train_valid_test_stratified_split {α : Type}
    (s1 s2 : Nat → List Nat → List Nat × List Nat)
    (rand : Nat → Nat → List α) (rng1 rng2 : Nat)
    (lines labels : List (List Char)) (classname2idx : List Char → Nat) :
    Option ((List (List Char) × List (List Char)) ×
      (List (List Char) × List (List Char)) ×
      (List (List Char) × List (List Char))) :=
  if lines.length = labels.length then
    let features := rand rng1 lines.length
    let labels_idx := labels.map classname2idx
    let split1 := s1 features.length labels_idx
    let train_lines := split1.1.map (fun i => lines.getD i [])
    let train_labels := split1.1.map (fun i => labels.getD i [])
    let test_valid_lines := split1.2.map (fun i => lines.getD i [])
    let test_valid_labels := split1.2.map (fun i => labels.getD i [])
    if test_valid_labels.length = test_valid_lines.length then
      let tv_features := rand rng2 test_valid_lines.length
      let tv_labels_idx := test_valid_labels.map classname2idx
      let split2 := s2 tv_features.length tv_labels_idx
      let test_lines := split2.1.map (fun i => test_valid_lines.getD i [])
      let test_labels := split2.1.map (fun i => test_valid_labels.getD i [])
      let validation_lines := split2.2.map (fun i => test_valid_lines.getD i [])
      let validation_labels :=
        split2.2.map (fun i => test_valid_labels.getD i [])
      some ((train_lines, train_labels),
            (validation_lines, validation_labels),
            (test_lines, test_labels))
    else none
  else none

/-- The index pair returned by the first splitter: train indices versus
test+valid indices, both into the original example list. -/
def stage1Split (s1 : Nat → List Nat → List Nat × List Nat)
    (lines labels : List (List Char)) (cmap : List Char → Nat) :
    List Nat × List Nat :=
  s1 lines.length (labels.map cmap)

/-- The index pair returned by the second splitter: test indices versus
validation indices, both into the test+valid sublist. -/
def stage2Split (s1 s2 : Nat → List Nat → List Nat × List Nat)
    (lines labels : List (List Char)) (cmap : List Char → Nat) :
    List Nat × List Nat :=
  s2 (stage1Split s1 lines labels cmap).2.length
    (((stage1Split s1 lines labels cmap).2.map
        (fun i => labels.getD i [])).map cmap)

/-- The test rows expressed as indices into the original example list. -/
def finalTestIndices (s1 s2 : Nat → List Nat → List Nat × List Nat)
    (lines labels : List (List Char)) (cmap : List Char → Nat) : List Nat :=
  (stage2Split s1 s2 lines labels cmap).1.map
    (fun j => (stage1Split s1 lines labels cmap).2.getD j 0)

/-- The validation rows expressed as indices into the original example
list. -/
def finalValidIndices (s1 s2 : Nat → List Nat → List Nat × List Nat)
    (lines labels : List (List Char)) (cmap : List Char → Nat) : List Nat :=
  (stage2Split s1 s2 lines labels cmap).2.map
    (fun j => (stage1Split s1 lines labels cmap).2.getD j 0)

lemma map_map_getD {β : Type} (sub tvIdx : List Nat) (g : Nat → β) (d : β)
    (hsub : ∀ j ∈ sub, j < tvIdx.length) :
    sub.map (fun j => (tvIdx.map g).getD j d) =
      (sub.map (fun j => tvIdx.getD j 0)).map g := by
  rw [List.map_map]
  apply List.map_congr_left
  intro j hj
  have hl := hsub j hj
  simp only [Function.comp]
  rw [List.getD_eq_getElem?_getD, List.getElem?_map,
    List.getElem?_eq_getElem hl]
  simp [List.getD_eq_getElem?_getD, List.getElem?_eq_getElem hl]

lemma map_getD_range (l : List Nat) :
    (List.range l.length).map (fun j => l.getD j 0) = l := by
  apply List.ext_getElem?
  intro i
  rw [List.getElem?_map]
  by_cases hi : i < l.length
  · rw [List.getElem?_range hi, List.getElem?_eq_getElem hi]
    simp [List.getD_eq_getElem?_getD, List.getElem?_eq_getElem hi]
  · rw [List.getElem?_eq_none (by simpa using hi),
      List.getElem?_eq_none (by omega)]
    rfl

/-- **C6.** When the two splitters each return a partition of their index
ranges (the scikit-learn contract for fractions that sum to one), the
returned train/validation/test lists are built from index lists that are
pairwise disjoint and together cover every input example exactly once:
their concatenation is a permutation of `range lines.length`. -/
theorem stratified_split_partition {α : Type}
    (s1 s2 : Nat → List Nat → List Nat × List Nat)
    (rand : Nat → Nat → List α) (rng1 rng2 : Nat)
    (lines labels : List (List Char)) (cmap : List Char → Nat)
    (hlen : lines.length = labels.length)
    (hrand : ∀ r n, (rand r n).length = n)
    (h1 : ((stage1Split s1 lines labels cmap).1 ++
        (stage1Split s1 lines labels cmap).2).Perm
        (List.range lines.length))
    (h2 : ((stage2Split s1 s2 lines labels cmap).1 ++
        (stage2Split s1 s2 lines labels cmap).2).Perm
        (List.range (stage1Split s1 lines labels cmap).2.length)) :
    get_train_valid_test_stratified_split s1 s2 rand rng1 rng2 lines labels
        cmap =
      some (((stage1Split s1 lines labels cmap).1.map
               (fun i => lines.getD i []),
             (stage1Split s1 lines labels cmap).1.map
               (fun i => labels.getD i [])),
            ((finalValidIndices s1 s2 lines labels cmap).map
               (fun i => lines.getD i []),
             (finalValidIndices s1 s2 lines labels cmap).map
               (fun i => labels.getD i [])),
            ((finalTestIndices s1 s2 lines labels cmap).map
               (fun i => lines.getD i []),
             (finalTestIndices s1 s2 lines labels cmap).map
               (fun i => labels.getD i [])))
    ∧ ((stage1Split s1 lines labels cmap).1 ++
        (finalValidIndices s1 s2 lines labels cmap ++
          finalTestIndices s1 s2 lines labels cmap)).Perm
        (List.range lines.length) := by
  have hsub : ∀ j ∈ (stage2Split s1 s2 lines labels cmap).1 ++
      (stage2Split s1 s2 lines labels cmap).2,
      j < (stage1Split s1 lines labels cmap).2.length := by
    intro j hj
    have := h2.mem_iff.mp hj
    exact List.mem_range.mp this
  constructor
  · unfold get_train_valid_test_stratified_split
    dsimp only
    rw [if_pos hlen]
    simp only [hrand, List.length_map, if_true]
    simp only [stage1Split, stage2Split, finalValidIndices, finalTestIndices,
      List.length_map]
    refine congrArg some (Prod.ext rfl (Prod.ext ?_ ?_)) <;>
      refine Prod.ext ?_ ?_ <;> dsimp only <;>
      rw [map_map_getD _ _ _ _ (by
        intro j hj
        have := hsub j (by simp only [stage1Split, stage2Split] at *; first
          | exact List.mem_append_left _ hj
          | exact List.mem_append_right _ hj)
        simpa [stage1Split] using this)]
  · have hmap := h2.map (fun j => (stage1Split s1 lines labels cmap).2.getD j 0)
    rw [List.map_append, map_getD_range] at hmap
    have hvt : (finalValidIndices s1 s2 lines labels cmap ++
        finalTestIndices s1 s2 lines labels cmap).Perm
        ((stage1Split s1 lines labels cmap).2) := by
      refine (List.perm_append_comm).trans ?_
      simpa [finalTestIndices, finalValidIndices] using hmap
    exact ((List.Perm.refl _).append hvt).trans h1

/-- **C7.** Determinism given the fixed `random_state=1729`: the feature
arrays drawn from numpy's global generator contribute only their sample
count, so two runs with arbitrary different generator states return
identical (train, valid, test) partitions. -/
theorem stratified_split_deterministic {α : Type}
    (s1 s2 : Nat → List Nat → List Nat × List Nat)
    (rand : Nat → Nat → List α) (rng1 rng2 rngA rngB : Nat)
    (lines labels : List (List Char)) (cmap : List Char → Nat)
    (hrand : ∀ r n, (rand r n).length = n) :
    get_train_valid_test_stratified_split s1 s2 rand rng1 rng2 lines labels
        cmap =
      get_train_valid_test_stratified_split s1 s2 rand rngA rngB lines labels
        cmap := by
  unfold get_train_valid_test_stratified_split
  dsimp only
  simp only [hrand]

/-- Concrete instances for the split witnesses. -/
def linesW : List (List Char) := ["w".data, "x".data, "y".data, "z".data]

def labelsW : List (List Char) := ["l".data, "l".data, "l".data, "l".data]

def s1W : Nat → List Nat → List Nat × List Nat := fun _ _ => ([0, 1, 2], [3])

def s2W : Nat → List Nat → List Nat × List Nat := fun _ _ => ([0], [])

def randW : Nat → Nat → List Nat := fun _ n => List.replicate n 0

theorem stratified_split_partition_witness :
    get_train_valid_test_stratified_split s1W s2W randW 0 1 linesW labelsW
        (fun _ => 0) =
      some ((["w".data, "x".data, "y".data],
             ["l".data, "l".data, "l".data]),
            (([] : List (List Char)), ([] : List (List Char))),
            (["z".data], ["l".data]))
    ∧ (([0, 1, 2] ++ ([] ++ [3]) : List Nat)).Perm (List.range 4) := by
  have h := stratified_split_partition s1W s2W randW 0 1 linesW labelsW
    (fun _ => 0) rfl (fun r n => by simp [randW]) (by decide) (by decide)
  exact ⟨h.1.trans (by rfl), h.2⟩

theorem stratified_split_deterministic_witness :
    get_train_valid_test_stratified_split s1W s2W randW 0 1 linesW labelsW
        (fun _ => 0) =
      get_train_valid_test_stratified_split s1W s2W randW 5 7 linesW labelsW
        (fun _ => 0) :=
  stratified_split_deterministic s1W s2W randW 0 1 5 7 linesW labelsW
    (fun _ => 0) (fun r n => by simp [randW])

/-! ## CoNLL line shape (claim C10) -/

/-- A string free of whitespace characters. -/
def WsFree (l : List Char) : Prop := ∀ c ∈ l, c.isWhitespace = false

instance (l : List Char) : Decidable (WsFree l) := by
  unfold WsFree
  infer_instance

lemma pySplitPred_ne_nil (p : Char → Bool) (l : List Char) :
    pySplitPred p l ≠ [] := by
  cases l with
  | nil => simp [pySplitPred]
  | cons c cs =>
      unfold pySplitPred
      split
      · simp
      · split <;> simp

lemma pySplitPred_no_sep (p : Char → Bool) :
    ∀ l : List Char, (∀ c ∈ l, p c = false) → pySplitPred p l = [l] := by
  intro l
  induction l with
  | nil => intro h; rfl
  | cons c cs ih =>
      intro h
      have hc : p c = false := h c (by simp)
      have hcs := ih (fun d hd => h d (List.mem_cons_of_mem c hd))
      simp [pySplitPred, hc, hcs]

lemma pySplitPred_append (p : Char → Bool) (sep : Char) (hsep : p sep = true) :
    ∀ (a b : List Char), (∀ c ∈ a, p c = false) →
      pySplitPred p (a ++ sep :: b) = a :: pySplitPred p b := by
  intro a
  induction a with
  | nil => intro b h; simp [pySplitPred, hsep]
  | cons c a ih =>
      intro b h
      have hc : p c = false := h c (by simp)
      have ha := ih b (fun d hd => h d (List.mem_cons_of_mem c hd))
      simp [pySplitPred, hc, ha]

lemma pyStrip_eq_self (l : List Char)
    (h1 : ∀ c, l.head? = some c → c.isWhitespace = false)
    (h2 : ∀ c, l.getLast? = some c → c.isWhitespace = false) :
    pyStrip l = l := by
  cases l with
  | nil => rfl
  | cons c cs =>
      have hstep1 : List.dropWhile Char.isWhitespace (c :: cs) = c :: cs := by
        rw [List.dropWhile_cons, if_neg (by simp [h1 c rfl])]
      rcases hrev : (c :: cs).reverse with _ | ⟨d, tl⟩
      · exact absurd hrev (by simp)
      · have hd : d.isWhitespace = false := by
          apply h2
          rw [← List.head?_reverse, hrev]
          rfl
        have hstep2 : List.dropWhile Char.isWhitespace (d :: tl) = d :: tl := by
          rw [List.dropWhile_cons, if_neg (by simp [hd])]
        unfold pyStrip
        rw [hstep1, hrev, hstep2, ← hrev, List.reverse_reverse]

/-- The shapes a tag can take after the `O`/`-` rewrite. -/
def TagForms (entities : List Entity) (entity : List Char)
    (tag : List Char) : Prop :=
  tag = oTagged entity ∨ ∃ e ∈ entities,
    tag = uTag e.2.2 ∨ tag = bTag e.2.2 ∨ tag = iTag e.2.2 ∨ tag = lTag e.2.2

/-- The shapes a raw tag can take after the entity-assignment loop. -/
def AssignedForm (entities : List Entity) (v : List Char) : Prop :=
  v = ['-'] ∨ ∃ e ∈ entities,
    v = uTag e.2.2 ∨ v = bTag e.2.2 ∨ v = iTag e.2.2 ∨ v = lTag e.2.2

lemma setSpan_mem : ∀ (m s : Nat) (b : List (List Char)) (v x : List Char),
    x ∈ setSpan b s m v → x ∈ b ∨ x = v := by
  intro m
  induction m with
  | zero => intro s b v x hx; exact Or.inl hx
  | succ m ih =>
      intro s b v x hx
      rcases ih (s + 1) (b.set s v) v x hx with h | h
      · rcases List.mem_or_eq_of_mem_set h with h2 | h2
        · exact Or.inl h2
        · exact Or.inr h2
      · exact Or.inr h

lemma assignEntity_mem (doc : List SpacyToken) (b : List (List Char))
    (e : Entity) (x : List Char) (hx : x ∈ assignEntity doc b e) :
    x ∈ b ∨ x = uTag e.2.2 ∨ x = bTag e.2.2 ∨ x = iTag e.2.2 ∨
      x = lTag e.2.2 := by
  unfold assignEntity at hx
  rcases h1 : lookupStart doc e.1 with _ | st <;>
    rcases h2 : lookupEnd doc e.2.1 with _ | en <;> rw [h1, h2] at hx <;>
    try exact Or.inl hx
  replace hx : x ∈ (if st = en then b.set st (uTag e.2.2)
      else (setSpan (b.set st (bTag e.2.2)) (st + 1) (en - (st + 1))
        (iTag e.2.2)).set en (lTag e.2.2)) := hx
  by_cases hse : st = en
  · rw [if_pos hse] at hx
    rcases List.mem_or_eq_of_mem_set hx with h | h
    · exact Or.inl h
    · exact Or.inr (Or.inl h)
  · rw [if_neg hse] at hx
    rcases List.mem_or_eq_of_mem_set hx with h | h
    · rcases setSpan_mem _ _ _ _ _ h with h3 | h3
      · rcases List.mem_or_eq_of_mem_set h3 with h4 | h4
        · exact Or.inl h4
        · exact Or.inr (Or.inr (Or.inl h4))
      · exact Or.inr (Or.inr (Or.inr (Or.inl h3)))
    · exact Or.inr (Or.inr (Or.inr (Or.inr h)))

lemma foldl_assign_form (doc : List SpacyToken) (entities : List Entity) :
    ∀ (es : List Entity) (b : List (List Char)),
      (∀ e ∈ es, e ∈ entities) → (∀ x ∈ b, AssignedForm entities x) →
      ∀ x ∈ es.foldl (assignEntity doc) b, AssignedForm entities x := by
  intro es
  induction es with
  | nil => intro b hsub hb x hx; exact hb x hx
  | cons e es ih =>
      intro b hsub hb x hx
      refine ih (assignEntity doc b e)
        (fun d hd => hsub d (List.mem_cons_of_mem e hd)) ?_ x hx
      intro y hy
      rcases assignEntity_mem doc b e y hy with h | h
      · exact hb y h
      · exact Or.inr ⟨e, hsub e (by simp), h⟩

lemma of_mem_zipWith {α β γ : Type} (f : α → β → γ) :
    ∀ (l1 : List α) (l2 : List β) (x : γ), x ∈ List.zipWith f l1 l2 →
      ∃ a, a ∈ l1 ∧ ∃ b, b ∈ l2 ∧ x = f a b := by
  intro l1
  induction l1 with
  | nil => intro l2 x hx; simp at hx
  | cons a l1 ih =>
      intro l2 x hx
      cases l2 with
      | nil => simp at hx
      | cons b l2 =>
          rw [List.zipWith_cons_cons] at hx
          rcases List.mem_cons.mp hx with h | h
          · exact ⟨a, by simp, b, by simp, h⟩
          · rcases ih l2 x h with ⟨a2, ha2, b2, hb2, hx2⟩
            exact ⟨a2, List.mem_cons_of_mem a ha2, b2,
              List.mem_cons_of_mem b hb2, hx2⟩

lemma mappedTags_forms (doc : List SpacyToken) (entities : List Entity)
    (entity : List Char) :
    ∀ tag ∈ mappedTags doc entities entity, TagForms entities entity tag := by
  intro tag htag
  rcases List.mem_map.mp htag with ⟨v, hv, rfl⟩
  rw [biluoTagsFromOffsets] at hv
  rcases of_mem_zipWith _ _ _ _ hv with ⟨t, ht, w, hw, rfl⟩
  have hw2 : AssignedForm entities w :=
    foldl_assign_form doc entities entities _ (fun e he => he)
      (by
        intro x hx
        rcases List.mem_map.mp hx with ⟨_, _, rfl⟩
        exact Or.inl rfl) w hw
  by_cases hov : tokenOverlaps entities t
  · rw [if_pos hov]
    rcases hw2 with h | ⟨e, he, h⟩
    · rw [h, mapTag_dash]
      exact Or.inl rfl
    · rcases h with h | h | h | h <;> rw [h] <;>
        [rw [mapTag_keep entity _ (by simp [uTag, headIs]) (by simp [uTag])];
         rw [mapTag_keep entity _ (by simp [bTag, headIs]) (by simp [bTag])];
         rw [mapTag_keep entity _ (by simp [iTag, headIs]) (by simp [iTag])];
         rw [mapTag_keep entity _ (by simp [lTag, headIs]) (by simp [lTag])]]
      · exact Or.inr ⟨e, he, Or.inl rfl⟩
      · exact Or.inr ⟨e, he, Or.inr (Or.inl rfl)⟩
      · exact Or.inr ⟨e, he, Or.inr (Or.inr (Or.inl rfl))⟩
      · exact Or.inr ⟨e, he, Or.inr (Or.inr (Or.inr rfl))⟩
  · rw [if_neg hov, mapTag_O]
    exact Or.inl rfl

lemma wsFree_tagCons (x : Char) (hx : x.isWhitespace = false)
    (label : List Char) (hl : WsFree label) : WsFree (x :: '-' :: label) := by
  intro c hc
  rcases List.mem_cons.mp hc with rfl | hc
  · exact hx
  · rcases List.mem_cons.mp hc with rfl | hc
    · decide
    · exact hl c hc

lemma tagForms_wsFree (entities : List Entity) (entity tag : List Char)
    (hentity : WsFree entity) (hlabels : ∀ e ∈ entities, WsFree e.2.2)
    (h : TagForms entities entity tag) : tag ≠ [] ∧ WsFree tag := by
  rcases h with h | ⟨e, he, h⟩
  · subst h
    exact ⟨by simp [oTagged], wsFree_tagCons 'O' (by decide) entity hentity⟩
  · have hl := hlabels e he
    rcases h with h | h | h | h <;> subst h
    · exact ⟨by simp [uTag], wsFree_tagCons 'U' (by decide) _ hl⟩
    · exact ⟨by simp [bTag], wsFree_tagCons 'B' (by decide) _ hl⟩
    · exact ⟨by simp [iTag], wsFree_tagCons 'I' (by decide) _ hl⟩
    · exact ⟨by simp [lTag], wsFree_tagCons 'L' (by decide) _ hl⟩

lemma wsFree_no_space (l : List Char) (h : WsFree l) :
    ∀ c ∈ l, (c == ' ') = false := by
  intro c hc
  have hcw := h c hc
  rw [beq_eq_false_iff_ne]
  intro hEq
  rw [hEq] at hcw
  exact absurd hcw (by decide)

/-- **C10.** Every line emitted by the per-entity BILOU conversion is a
token text followed by the same tag three times, separated by single
spaces; under the tokenizer/loader guarantees (non-whitespace tokens
contain no whitespace characters, labels and the entity name contain no
whitespace), stripping the line is the identity and splitting it on `" "`
yields exactly four columns — the invariant `merge_files` relies on when
it unpacks `word, _, _, tag = line.strip().split(" ")`. -/
theorem bilou_line_four_columns (doc : List SpacyToken)
    (entities : List Entity) (entity : List Char)
    (htok : ∀ t ∈ doc, t.isSpace = false → t.text ≠ [] ∧ WsFree t.text)
    (hlabels : ∀ e ∈ entities, WsFree e.2.2) (hentity : WsFree entity) :
    ∀ line ∈ bilouLinesForEntity doc entities entity,
      ∃ t tag, t ∈ doc ∧ line = bilouLine t tag ∧ pyStrip line = line ∧
        pySplitChar ' ' line = [t.text, tag, tag, tag] := by
  intro line hline
  rcases List.mem_map.mp hline with ⟨p, hp, rfl⟩
  rcases List.mem_filter.mp hp with ⟨hpz, hps⟩
  obtain ⟨ht, htagmem⟩ := List.of_mem_zip hpz
  have hsp : p.1.isSpace = false := by simpa using hps
  obtain ⟨htne, htws⟩ := htok p.1 ht hsp
  obtain ⟨htgne, htgws⟩ := tagForms_wsFree entities entity p.2 hentity hlabels
    (mappedTags_forms doc entities entity p.2 htagmem)
  obtain ⟨c0, w0, hw⟩ : ∃ c0 w0, p.1.text = c0 :: w0 := by
    cases hx : p.1.text with
    | nil => exact absurd hx htne
    | cons a b => exact ⟨a, b, rfl⟩
  refine ⟨p.1, p.2, ht, rfl, ?_, ?_⟩
  · apply pyStrip_eq_self
    · intro c hc
      have hhead : (bilouLine p.1 p.2).head? = some c0 := by
        rw [bilouLine, hw]
        rfl
      rw [hhead] at hc
      obtain rfl := Option.some.inj hc
      exact htws c0 (by rw [hw]; exact List.mem_cons_self c0 w0)
    · intro c hc
      have hre : bilouLine p.1 p.2 =
          (p.1.text ++ ' ' :: (p.2 ++ ' ' :: p.2) ++ [' ']) ++ p.2 := by
        simp [bilouLine]
      rw [hre, List.getLast?_append_of_ne_nil _ htgne] at hc
      have hmem : c ∈ p.2.getLast? := Option.mem_def.mpr hc
      rcases List.mem_getLast?_eq_getLast hmem with ⟨hne2, hEq⟩
      exact htgws c (hEq ▸ List.getLast_mem hne2)
  · have hsep : (' ' == ' ') = true := by decide
    have hwsep := wsFree_no_space p.1.text htws
    have htgsep := wsFree_no_space p.2 htgws
    rw [bilouLine, pySplitChar,
      pySplitPred_append (fun c => c == ' ') ' ' hsep p.1.text _ hwsep,
      pySplitPred_append (fun c => c == ' ') ' ' hsep p.2 _ htgsep,
      pySplitPred_append (fun c => c == ' ') ' ' hsep p.2 _ htgsep,
      pySplitPred_no_sep (fun c => c == ' ') p.2 htgsep]

theorem bilou_line_four_columns_witness :
    ∃ t tag, t ∈ docAI ∧
      bilouLine docAI[0] (uTag ("Task".data)) = bilouLine t tag ∧
      pyStrip (bilouLine docAI[0] (uTag ("Task".data))) =
        bilouLine docAI[0] (uTag ("Task".data)) ∧
      pySplitChar ' ' (bilouLine docAI[0] (uTag ("Task".data))) =
        [t.text, tag, tag, tag] := by
  have h := bilou_line_four_columns docAI [(0, 2, "Task".data)] ("Task".data)
    (by decide) (by decide) (by decide)
  exact h (bilouLine docAI[0] (uTag ("Task".data))) (by decide)

/-! ## BILOU round trip (claim C4)

`write_ann_file_from_conll_file` converts BILOU tags back to character
offsets through `spacy.gold.offsets_from_biluo_tags`, whose spaCy 2.x
source (`tags_to_entities` followed by span slicing) is embedded below.
The round-trip claim quantifies over annotation sets that exactly tile
token boundaries: each span starts at some token's first character and
ends at some token's last character, spans are pairwise disjoint and
listed in increasing position order.  Such a set is exactly the image of
a well-formed list of token-index spans `(a, b, label)` under
`spansToEntities`. -/

/-- The loop of spaCy's `tags_to_entities`: state is the enumeration
index, the pending `start` (Python `None` embedded as `none`) and the
accumulated `(label, start_token, end_token)` triples; a stray `I-` tag
or an unrecognised tag raises `ValueError` (`none`). -/
def tagsToEntitiesAux : List (List Char) → Nat → Option Nat →
    List (List Char × Option Nat × Nat) →
    Option (List (List Char × Option Nat × Nat))
  | [], _, _, acc => some acc
  | t :: rest, i, st, acc =>
      if headIs t 'O' then tagsToEntitiesAux rest (i + 1) none acc
      else if t = ['-'] then tagsToEntitiesAux rest (i + 1) st acc
      else if headIs t 'I' then
        match st with
        | none => none
        | some _ => tagsToEntitiesAux rest (i + 1) st acc
      else if headIs t 'U' then
        tagsToEntitiesAux rest (i + 1) st (acc ++ [(t.drop 2, some i, i)])
      else if headIs t 'B' then tagsToEntitiesAux rest (i + 1) (some i) acc
      else if headIs t 'L' then
        tagsToEntitiesAux rest (i + 1) none (acc ++ [(t.drop 2, st, i)])
      else none

/-- `spacy.gold.tags_to_entities`. -/
def tagsToEntities (tags : List (List Char)) :
    Option (List (List Char × Option Nat × Nat)) :=
  tagsToEntitiesAux tags 0 none []

/-- The character offsets of the span `doc[start_idx : end_idx + 1]`
(`start_char` of its first and `end_char` of its last token); a Python
`None` start slices from 0, and an empty span has no such characters
(`none`, the `IndexError` case). -/
def spanOffsets (doc : List SpacyToken) (st : Option Nat) (en : Nat) :
    Option (Nat × Nat) :=
  let span := (doc.drop (st.getD 0)).take (en + 1 - st.getD 0)
  match span.head?, span.getLast? with
  | some h, some l => some (h.idx, l.endIdx)
  | _, _ => none

/-- The offset-collection loop of `offsets_from_biluo_tags`. -/
def offsetsLoop (doc : List SpacyToken) :
    List (List Char × Option Nat × Nat) → Option (List Entity)
  | [] => some []
  | ent :: rest =>
      match spanOffsets doc ent.2.1 ent.2.2 with
      | some p => (offsetsLoop doc rest).map (fun os => (p.1, p.2, ent.1) :: os)
      | none => none

/-- `spacy.gold.offsets_from_biluo_tags doc tags`. -/
def offsetsFromBiluoTags (doc : List SpacyToken) (tags : List (List Char)) :
    Option (List Entity) :=
  (tagsToEntities tags).bind (offsetsLoop doc)

/-- The BILOU tag of position `i` inside the token span `[a, b]`. -/
def spanTagAt (a b : Nat) (label : List Char) (i : Nat) : List Char :=
  if a = b then uTag label
  else if i = a then bTag label
  else if i = b then lTag label
  else iTag label

/-- The tag block of the token span `[a, b]`: `U-` for a single token,
`B- I-* L-` otherwise. -/
def blockTags (a b : Nat) (label : List Char) : List (List Char) :=
  if a = b then [uTag label]
  else bTag label :: (List.replicate (b - a - 1) (iTag label) ++ [lTag label])

/-- The expected mapped tag list for a sorted list of disjoint token
spans over `n` tokens, starting from position `pos`: `O-<entity>` runs
between the tag blocks. -/
def buildTags (entity : List Char) (n : Nat) :
    Nat → List (Nat × Nat × List Char) → List (List Char)
  | pos, [] => List.replicate (n - pos) (oTagged entity)
  | pos, s :: rest =>
      List.replicate (s.1 - pos) (oTagged entity) ++
        blockTags s.1 s.2.1 s.2.2 ++ buildTags entity n (s.2.1 + 1) rest

/-- The annotation spans denoted by a list of token-index spans: each
starts at its first token's start character and ends at its last token's
end character. -/
def spansToEntities (doc : List SpacyToken)
    (spans : List (Nat × Nat × List Char)) : List Entity :=
  spans.map (fun s =>
    ((doc.getD s.1 default).idx, (doc.getD s.2.1 default).endIdx, s.2.2))

/-- Well-formedness of the tokenizer output: every token is non-empty and
consecutive tokens occupy non-overlapping, increasing character ranges. -/
def DocOk (doc : List SpacyToken) : Prop :=
  (∀ t ∈ doc, t.text ≠ []) ∧
    List.Chain' (fun t u => t.endIdx ≤ u.idx) doc

instance (doc : List SpacyToken) : Decidable (DocOk doc) :=
  inferInstanceAs (Decidable ((∀ t ∈ doc, t.text ≠ []) ∧
    List.Chain' (fun t u : SpacyToken => t.endIdx ≤ u.idx) doc))

/-- Well-formedness of a token-index span list over `n` tokens: spans are
listed in strictly increasing, pairwise disjoint position order and stay
within the document. -/
def SpansOk (n : Nat) (spans : List (Nat × Nat × List Char)) : Prop :=
  List.Chain' (fun x y => x.2.1 < y.1) spans ∧
    ∀ s ∈ spans, s.1 ≤ s.2.1 ∧ s.2.1 < n

instance (n : Nat) (spans : List (Nat × Nat × List Char)) :
    Decidable (SpansOk n spans) :=
  inferInstanceAs (Decidable
    (List.Chain' (fun x y : Nat × Nat × List Char => x.2.1 < y.1) spans ∧
      ∀ s ∈ spans, s.1 ≤ s.2.1 ∧ s.2.1 < n))

lemma natSpan_mem (c : Nat) : ∀ (n s : Nat), c ∈ natSpan s n ↔ s ≤ c ∧ c < s + n := by
  intro n
  induction n with
  | zero => intro s; simp [natSpan]
  | succ n ih =>
      intro s
      rw [natSpan, List.mem_cons, ih (s + 1)]
      omega

lemma docOk_text_ne (doc : List SpacyToken) (hdoc : DocOk doc) (i : Nat)
    (hi : i < doc.length) : doc[i].idx < doc[i].endIdx := by
  have := hdoc.1 doc[i] (List.getElem_mem hi)
  have hlen : 0 < doc[i].text.length := List.length_pos.mpr this
  unfold SpacyToken.endIdx
  omega

lemma docOk_adjacent (doc : List SpacyToken) (hdoc : DocOk doc) (i : Nat)
    (hi : i + 1 < doc.length) : doc[i].endIdx ≤ doc[i + 1].idx := by
  have := List.chain'_iff_get.mp hdoc.2 i (by omega)
  simpa [List.get_eq_getElem] using this

lemma docOk_gap (doc : List SpacyToken) (hdoc : DocOk doc) :
    ∀ (j i : Nat) (hij : i < j) (hj : j < doc.length),
      doc[i].endIdx ≤ doc[j].idx := by
  intro j
  induction j with
  | zero => intro i hij; omega
  | succ j ih =>
      intro i hij hj
      by_cases hij2 : i = j
      · subst hij2
        exact docOk_adjacent doc hdoc i hj
      · have h1 : i < j := by omega
        have h2 : j < doc.length := by omega
        have ha := ih i h1 h2
        have hb := docOk_text_ne doc hdoc j h2
        have hcc := docOk_adjacent doc hdoc j hj
        omega

lemma docOk_idx_le (doc : List SpacyToken) (hdoc : DocOk doc) (i j : Nat)
    (hij : i ≤ j) (hj : j < doc.length) : doc[i].idx ≤ doc[j].idx := by
  rcases Nat.eq_or_lt_of_le hij with rfl | hlt
  · exact le_refl _
  · have := docOk_gap doc hdoc j i hlt hj
    have := docOk_text_ne doc hdoc i (by omega)
    omega

lemma docOk_endIdx_le (doc : List SpacyToken) (hdoc : DocOk doc) (i j : Nat)
    (hij : i ≤ j) (hj : j < doc.length) : doc[i].endIdx ≤ doc[j].endIdx := by
  rcases Nat.eq_or_lt_of_le hij with rfl | hlt
  · exact le_refl _
  · have := docOk_gap doc hdoc j i hlt hj
    have := docOk_text_ne doc hdoc j hj
    omega

lemma foldl_find_last (p : Nat → Prop) [DecidablePred p] (a : Nat) :
    ∀ (l : List Nat) (acc : Option Nat),
      (∀ i ∈ l, p i ↔ i = a) → (a ∈ l ∨ acc = some a) →
      l.foldl (fun acc i => if p i then some i else acc) acc = some a := by
  intro l
  induction l with
  | nil =>
      intro acc h hm
      rcases hm with h0 | h0
      · simp at h0
      · exact h0
  | cons i l ih =>
      intro acc h hm
      rw [List.foldl_cons]
      by_cases hpi : p i
      · have hia : i = a := (h i (by simp)).mp hpi
        subst hia
        rw [if_pos hpi]
        exact ih _ (fun d hd => h d (List.mem_cons_of_mem i hd)) (Or.inr rfl)
      · rw [if_neg hpi]
        apply ih _ (fun d hd => h d (List.mem_cons_of_mem i hd))
        rcases hm with hm | hm
        · rcases List.mem_cons.mp hm with rfl | hm2
          · exact absurd ((h a (by simp)).mpr rfl) hpi
          · exact Or.inl hm2
        · exact Or.inr hm

lemma lookupStart_eq (doc : List SpacyToken) (hdoc : DocOk doc) (a : Nat)
    (ha : a < doc.length) : lookupStart doc (doc[a].idx) = some a := by
  unfold lookupStart
  apply foldl_find_last (fun i => (doc.getD i default).idx = doc[a].idx) a
  · intro i hi
    have hiL : i < doc.length := List.mem_range.mp hi
    rw [List.getD_eq_getElem _ _ hiL]
    constructor
    · intro hEq
      by_contra hne
      rcases Nat.lt_or_ge i a with hlt | hge
      · have hg := docOk_gap doc hdoc a i hlt ha
        have hn := docOk_text_ne doc hdoc i hiL
        omega
      · have hlt2 : a < i := by omega
        have hg := docOk_gap doc hdoc i a hlt2 hiL
        have hn := docOk_text_ne doc hdoc a ha
        omega
    · rintro rfl
      rfl
  · exact Or.inl (List.mem_range.mpr ha)

lemma lookupEnd_eq (doc : List SpacyToken) (hdoc : DocOk doc) (b : Nat)
    (hb : b < doc.length) : lookupEnd doc (doc[b].endIdx) = some b := by
  unfold lookupEnd
  apply foldl_find_last (fun i => (doc.getD i default).endIdx = doc[b].endIdx) b
  · intro i hi
    have hiL : i < doc.length := List.mem_range.mp hi
    rw [List.getD_eq_getElem _ _ hiL]
    constructor
    · intro hEq
      by_contra hne
      rcases Nat.lt_or_ge i b with hlt | hge
      · have hg := docOk_gap doc hdoc b i hlt hb
        have hn := docOk_text_ne doc hdoc b hb
        omega
      · have hlt2 : b < i := by omega
        have hg := docOk_gap doc hdoc i b hlt2 hiL
        have hn := docOk_text_ne doc hdoc i hiL
        omega
    · rintro rfl
      rfl
  · exact Or.inl (List.mem_range.mpr hb)

lemma setSpan_getElem? :
    ∀ (m s : Nat) (b : List (List Char)) (v : List Char) (j : Nat),
      (setSpan b s m v)[j]? =
        if s ≤ j ∧ j < s + m ∧ j < b.length then some v else b[j]? := by
  intro m
  induction m with
  | zero =>
      intro s b v j
      rw [setSpan, if_neg (by omega)]
  | succ m ih =>
      intro s b v j
      rw [setSpan, ih (s + 1) (b.set s v) v j, List.getElem?_set,
        List.length_set]
      split_ifs <;>
        first
          | rfl
          | omega
          | exact (List.getElem?_eq_none (by omega)).symm

lemma assignEntity_getElem? (doc : List SpacyToken) (b : List (List Char))
    (sc ec : Nat) (label : List Char) (a bb : Nat)
    (h1 : lookupStart doc sc = some a) (h2 : lookupEnd doc ec = some bb)
    (hab : a ≤ bb) (j : Nat) :
    (assignEntity doc b (sc, ec, label))[j]? =
      if a ≤ j ∧ j ≤ bb ∧ j < b.length then some (spanTagAt a bb label j)
      else b[j]? := by
  have hx : assignEntity doc b (sc, ec, label) =
      if a = bb then b.set a (uTag label)
      else (setSpan (b.set a (bTag label)) (a + 1) (bb - (a + 1))
        (iTag label)).set bb (lTag label) := by
    unfold assignEntity
    rw [h1, h2]
  rw [hx]
  by_cases hcase : a = bb
  · subst hcase
    have hsp : ∀ jj, spanTagAt a a label jj = uTag label := by
      intro jj
      simp [spanTagAt]
    rw [if_pos rfl, List.getElem?_set, hsp j]
    split_ifs <;>
      first
        | rfl
        | omega
        | exact (List.getElem?_eq_none (by omega)).symm
  · rw [if_neg hcase, List.getElem?_set, setSpan_getElem?, List.getElem?_set,
      setSpan_length, List.length_set]
    simp only [spanTagAt]
    rw [if_neg hcase]
    split_ifs <;>
      first
        | rfl
        | omega
        | exact (List.getElem?_eq_none (by omega)).symm

lemma chain'_spans_lb :
    ∀ (rest : List (Nat × Nat × List Char)) (s : Nat × Nat × List Char),
      List.Chain' (fun x y => x.2.1 < y.1) (s :: rest) →
      (∀ x ∈ rest, x.1 ≤ x.2.1) →
      ∀ x ∈ rest, s.2.1 < x.1 := by
  intro rest
  induction rest with
  | nil => intro s _ _ x hx; simp at hx
  | cons s2 rest ih =>
      intro s hch hbd x hx
      have hrel : s.2.1 < s2.1 := (List.chain'_cons.mp hch).1
      rcases List.mem_cons.mp hx with rfl | hx2
      · exact hrel
      · have h2 := ih s2 (List.chain'_cons.mp hch).2
          (fun d hd => hbd d (List.mem_cons_of_mem s2 hd)) x hx2
        have hb2 : s2.1 ≤ s2.2.1 := hbd s2 (by simp)
        omega

lemma foldl_assign_spans_getElem? (doc : List SpacyToken) (hdoc : DocOk doc) :
    ∀ (spans : List (Nat × Nat × List Char)) (b : List (List Char)),
      SpansOk doc.length spans → b.length = doc.length → ∀ j : Nat,
      ((spansToEntities doc spans).foldl (assignEntity doc) b)[j]? =
        match spans.find? (fun s => decide (s.1 ≤ j) && decide (j ≤ s.2.1)) with
        | some s => some (spanTagAt s.1 s.2.1 s.2.2 j)
        | none => b[j]? := by
  intro spans
  induction spans with
  | nil => intro b _ _ j; simp [spansToEntities]
  | cons s rest ih =>
      intro b hok hlen j
      have hbd := hok.2 s (by simp)
      have ha : s.1 < doc.length := by omega
      have hbb : s.2.1 < doc.length := hbd.2
      simp only [spansToEntities, List.map_cons, List.foldl_cons]
      have hlook1 : lookupStart doc ((doc.getD s.1 default).idx) = some s.1 := by
        rw [List.getD_eq_getElem _ _ ha]
        exact lookupStart_eq doc hdoc s.1 ha
      have hlook2 : lookupEnd doc ((doc.getD s.2.1 default).endIdx) =
          some s.2.1 := by
        rw [List.getD_eq_getElem _ _ hbb]
        exact lookupEnd_eq doc hdoc s.2.1 hbb
      have hassign := assignEntity_getElem? doc b _ _ s.2.2 s.1 s.2.1 hlook1
        hlook2 hbd.1 j
      have hokrest : SpansOk doc.length rest :=
        ⟨hok.1.tail, fun d hd => hok.2 d (List.mem_cons_of_mem _ hd)⟩
      have hrec := ih (assignEntity doc b
          ((doc.getD s.1 default).idx, (doc.getD s.2.1 default).endIdx, s.2.2))
        hokrest (by rw [assignEntity_length]; exact hlen) j
      rw [show (spansToEntities doc rest) = rest.map (fun s =>
        ((doc.getD s.1 default).idx, (doc.getD s.2.1 default).endIdx, s.2.2))
        from rfl] at hrec
      rw [hrec]
      have hlb := chain'_spans_lb rest s hok.1
        (fun d hd => (hok.2 d (List.mem_cons_of_mem _ hd)).1)
      by_cases hcov : s.1 ≤ j ∧ j ≤ s.2.1
      · have hcond : (decide (s.1 ≤ j) && decide (j ≤ s.2.1)) = true := by
          simp [hcov.1, hcov.2]
        have hfind : (s :: rest).find?
            (fun s2 => decide (s2.1 ≤ j) && decide (j ≤ s2.2.1)) = some s := by
          rw [List.find?_cons, hcond]
        have hnone : rest.find?
            (fun s2 => decide (s2.1 ≤ j) && decide (j ≤ s2.2.1)) = none := by
          rw [List.find?_eq_none]
          intro x hx
          have := hlb x hx
          simp only [Bool.and_eq_true, decide_eq_true_eq, not_and]
          omega
        rw [hfind, hnone, hassign, if_pos ⟨hcov.1, hcov.2, by omega⟩]
      · have hcond : (decide (s.1 ≤ j) && decide (j ≤ s.2.1)) = false := by
          by_cases hx1 : s.1 ≤ j
          · have hx2 : ¬ j ≤ s.2.1 := fun hh => hcov ⟨hx1, hh⟩
            simp [hx2]
          · simp [hx1]
        have hfind : (s :: rest).find?
            (fun s2 => decide (s2.1 ≤ j) && decide (j ≤ s2.2.1)) =
            rest.find? (fun s2 => decide (s2.1 ≤ j) && decide (j ≤ s2.2.1)) := by
          rw [List.find?_cons, hcond]
        rw [hfind]
        rcases hrf : rest.find?
            (fun s2 => decide (s2.1 ≤ j) && decide (j ≤ s2.2.1)) with _ | s2
        · rw [hrf, hassign, if_neg (fun hh => hcov ⟨hh.1, hh.2.1⟩)]
        · rw [hrf]

lemma tokenOverlaps_iff_cover (doc : List SpacyToken) (hdoc : DocOk doc)
    (spans : List (Nat × Nat × List Char)) (hspans : SpansOk doc.length spans)
    (j : Nat) (hj : j < doc.length) :
    tokenOverlaps (spansToEntities doc spans) doc[j] = true ↔
      ∃ s ∈ spans, s.1 ≤ j ∧ j ≤ s.2.1 := by
  unfold tokenOverlaps
  rw [List.any_eq_true]
  constructor
  · rintro ⟨c, hc, hin⟩
    rw [natSpan_mem] at hc
    unfold inEntityChars at hin
    rw [List.any_eq_true] at hin
    rcases hin with ⟨e, he, hce⟩
    rcases List.mem_map.mp he with ⟨s, hs, rfl⟩
    simp only [Bool.and_eq_true, decide_eq_true_eq] at hce
    have hsb := hspans.2 s hs
    have ha : s.1 < doc.length := by omega
    have hbb : s.2.1 < doc.length := hsb.2
    rw [List.getD_eq_getElem _ _ ha, List.getD_eq_getElem _ _ hbb] at hce
    have hE : doc[j].endIdx = doc[j].idx + doc[j].text.length := rfl
    refine ⟨s, hs, ?_, ?_⟩
    · by_contra hlt
      push_neg at hlt
      have hg := docOk_gap doc hdoc s.1 j hlt ha
      omega
    · by_contra hlt
      push_neg at hlt
      have hg := docOk_gap doc hdoc j s.2.1 hlt hj
      have hE2 : doc[s.2.1].endIdx = doc[s.2.1].idx + doc[s.2.1].text.length :=
        rfl
      omega
  · rintro ⟨s, hs, h1, h2⟩
    have hsb := hspans.2 s hs
    have ha : s.1 < doc.length := by omega
    have hbb : s.2.1 < doc.length := hsb.2
    refine ⟨doc[j].idx, ?_, ?_⟩
    · rw [natSpan_mem]
      have hy := docOk_text_ne doc hdoc j hj
      have hE : doc[j].endIdx = doc[j].idx + doc[j].text.length := rfl
      omega
    · unfold inEntityChars
      rw [List.any_eq_true]
      refine ⟨((doc.getD s.1 default).idx, (doc.getD s.2.1 default).endIdx,
        s.2.2), List.mem_map.mpr ⟨s, hs, rfl⟩, ?_⟩
      simp only [Bool.and_eq_true, decide_eq_true_eq]
      rw [List.getD_eq_getElem _ _ ha, List.getD_eq_getElem _ _ hbb]
      constructor
      · exact docOk_idx_le doc hdoc s.1 j h1 hj
      · have hx := docOk_endIdx_le doc hdoc j s.2.1 h2 hbb
        have hy := docOk_text_ne doc hdoc j hj
        omega

lemma blockTags_length (a b : Nat) (label : List Char) (hab : a ≤ b) :
    (blockTags a b label).length = b - a + 1 := by
  unfold blockTags
  split
  · rename_i h
    simp
    omega
  · rename_i h
    simp
    omega

lemma blockTags_getElem? (a b : Nat) (label : List Char) (hab : a ≤ b)
    (m : Nat) :
    (blockTags a b label)[m]? =
      if m ≤ b - a then some (spanTagAt a b label (a + m)) else none := by
  unfold blockTags
  by_cases hcase : a = b
  · subst hcase
    rw [if_pos rfl]
    cases m with
    | zero =>
        rw [if_pos (by omega)]
        simp [spanTagAt]
    | succ m =>
        rw [if_neg (by omega)]
        simp
  · rw [if_neg hcase]
    cases m with
    | zero =>
        rw [if_pos (by omega)]
        simp only [List.getElem?_cons_zero]
        unfold spanTagAt
        rw [if_neg hcase, if_pos (by omega)]
    | succ m =>
        simp only [List.getElem?_cons_succ]
        rw [List.getElem?_append]
        simp only [List.length_replicate]
        by_cases h1 : m < b - a - 1
        · rw [if_pos h1, List.getElem?_replicate, if_pos h1,
            if_pos (by omega)]
          unfold spanTagAt
          rw [if_neg hcase, if_neg (by omega), if_neg (by omega)]
        · rw [if_neg h1]
          by_cases h2 : m = b - a - 1
          · subst h2
            rw [Nat.sub_self]
            simp only [List.getElem?_cons_zero]
            rw [if_pos (by omega)]
            unfold spanTagAt
            rw [if_neg hcase, if_neg (by omega), if_pos (by omega)]
          · rw [if_neg (by omega)]
            exact List.getElem?_eq_none (by simp; omega)

lemma buildTags_getElem? (entity : List Char) (n : Nat) :
    ∀ (spans : List (Nat × Nat × List Char)) (pos j : Nat),
      List.Chain' (fun x y => x.2.1 < y.1) spans →
      (∀ s ∈ spans, s.1 ≤ s.2.1 ∧ s.2.1 < n) →
      (∀ s ∈ spans, pos ≤ s.1) →
      (buildTags entity n pos spans)[j]? =
        if pos + j < n then
          some (match spans.find? (fun s => decide (s.1 ≤ pos + j) &&
                  decide (pos + j ≤ s.2.1)) with
                | some s => spanTagAt s.1 s.2.1 s.2.2 (pos + j)
                | none => oTagged entity)
        else none := by
  intro spans
  induction spans with
  | nil =>
      intro pos j _ _ _
      rw [buildTags, List.getElem?_replicate]
      by_cases h : j < n - pos
      · rw [if_pos h, if_pos (by omega)]
        rfl
      · rw [if_neg h, if_neg (by omega)]
  | cons s rest ih =>
      intro pos j hch hbd hpos
      rw [buildTags]
      have hs1 := (hbd s (by simp)).1
      have hs2 := (hbd s (by simp)).2
      have hps := hpos s (by simp)
      have hlb := chain'_spans_lb rest s hch
        (fun d hd => (hbd d (List.mem_cons_of_mem _ hd)).1)
      rw [List.getElem?_append, List.length_append, List.length_replicate,
        blockTags_length s.1 s.2.1 s.2.2 hs1]
      by_cases hA : j < s.1 - pos + (s.2.1 - s.1 + 1)
      · rw [if_pos hA, List.getElem?_append, List.length_replicate]
        by_cases hB : j < s.1 - pos
        · rw [if_pos hB, List.getElem?_replicate, if_pos hB,
            if_pos (by omega)]
          have hfind : (s :: rest).find? (fun s2 =>
              decide (s2.1 ≤ pos + j) && decide (pos + j ≤ s2.2.1)) = none := by
            rw [List.find?_eq_none]
            intro x hx
            simp only [Bool.and_eq_true, decide_eq_true_eq, not_and]
            rcases List.mem_cons.mp hx with rfl | hx2
            · omega
            · have := hlb x hx2
              omega
          rw [hfind]
        · rw [if_neg hB, blockTags_getElem? s.1 s.2.1 s.2.2 hs1,
            if_pos (by omega), if_pos (by omega)]
          have hfind : (s :: rest).find? (fun s2 =>
              decide (s2.1 ≤ pos + j) && decide (pos + j ≤ s2.2.1)) =
              some s := by
            rw [List.find?_cons]
            have hc : (decide (s.1 ≤ pos + j) && decide (pos + j ≤ s.2.1)) =
                true := by
              simp only [Bool.and_eq_true, decide_eq_true_eq]
              omega
            rw [hc]
          rw [hfind, show s.1 + (j - (s.1 - pos)) = pos + j from by omega]
      · rw [if_neg hA,
          ih (s.2.1 + 1) (j - (s.1 - pos + (s.2.1 - s.1 + 1))) hch.tail
            (fun d hd => hbd d (List.mem_cons_of_mem _ hd))
            (fun d hd => by have := hlb d hd; omega),
          show s.2.1 + 1 + (j - (s.1 - pos + (s.2.1 - s.1 + 1))) = pos + j
            from by omega]
        have hfind : (s :: rest).find? (fun s2 =>
            decide (s2.1 ≤ pos + j) && decide (pos + j ≤ s2.2.1)) =
            rest.find? (fun s2 =>
              decide (s2.1 ≤ pos + j) && decide (pos + j ≤ s2.2.1)) := by
          rw [List.find?_cons]
          have hc : (decide (s.1 ≤ pos + j) && decide (pos + j ≤ s.2.1)) =
              false := by
            have hx : ¬ (pos + j ≤ s.2.1) := by omega
            simp [hx]
          rw [hc]
        rw [hfind]

lemma mapTag_spanTagAt (entity label : List Char) (a b i : Nat) :
    mapTag entity (spanTagAt a b label i) = spanTagAt a b label i := by
  unfold spanTagAt
  split_ifs <;>
    exact mapTag_keep entity _ (by simp [uTag, bTag, iTag, lTag, headIs])
      (by simp [uTag, bTag, iTag, lTag])

/-- The mapped tag list equals the canonical block structure. -/
lemma mappedTags_eq_buildTags (doc : List SpacyToken) (hdoc : DocOk doc)
    (spans : List (Nat × Nat × List Char)) (hspans : SpansOk doc.length spans)
    (entity : List Char) :
    mappedTags doc (spansToEntities doc spans) entity =
      buildTags entity doc.length 0 spans := by
  apply List.ext_getElem?
  intro i
  rw [buildTags_getElem? entity doc.length spans 0 i hspans.1 hspans.2
    (fun s hs => Nat.zero_le _)]
  simp only [Nat.zero_add]
  by_cases hi : i < doc.length
  · have hbil := biluoTagsFromOffsets_getElem? doc (spansToEntities doc spans)
      i hi
    have hfold := foldl_assign_spans_getElem? doc hdoc spans
      (doc.map (fun _ => ['-'])) hspans (by simp) i
    rw [if_pos hi]
    rcases hf : spans.find? (fun s => decide (s.1 ≤ i) && decide (i ≤ s.2.1))
      with _ | s
    · rw [hf] at hfold
      rw [hf]
      have hnc : ¬ ∃ s ∈ spans, s.1 ≤ i ∧ i ≤ s.2.1 := by
        rintro ⟨s, hs, hc1, hc2⟩
        have := List.find?_eq_none.mp hf s hs
        simp only [Bool.and_eq_true, decide_eq_true_eq, not_and] at this
        omega
      have hov : tokenOverlaps (spansToEntities doc spans) doc[i] = false := by
        rcases hb : tokenOverlaps (spansToEntities doc spans) doc[i] with _ | _
        · rfl
        · exact absurd ((tokenOverlaps_iff_cover doc hdoc spans hspans i
            hi).mp hb) hnc
      rw [hov] at hbil
      simp only [Bool.false_eq_true, if_false] at hbil
      rw [mappedTags_getElem?_of_raw doc _ entity i _ hbil, mapTag_O]
    · rw [hf] at hfold
      rw [hf]
      have hmem := List.mem_of_find?_eq_some hf
      have hcond := List.find?_some hf
      simp only [Bool.and_eq_true, decide_eq_true_eq] at hcond
      have hov : tokenOverlaps (spansToEntities doc spans) doc[i] = true :=
        (tokenOverlaps_iff_cover doc hdoc spans hspans i hi).mpr
          ⟨s, hmem, hcond.1, hcond.2⟩
      rw [hov, if_pos rfl] at hbil
      rw [List.getD_eq_getElem?_getD, hfold] at hbil
      replace hbil : (biluoTagsFromOffsets doc (spansToEntities doc spans))[i]?
          = some (spanTagAt s.1 s.2.1 s.2.2 i) := hbil
      rw [mappedTags_getElem?_of_raw doc _ entity i _ hbil, mapTag_spanTagAt]
  · rw [if_neg (by omega)]
    exact List.getElem?_eq_none (by rw [mappedTags_length]; omega)

lemma tagsToEntitiesAux_cons (t : List Char) (rest : List (List Char))
    (i : Nat) (st : Option Nat) (acc : List (List Char × Option Nat × Nat)) :
    tagsToEntitiesAux (t :: rest) i st acc =
      if headIs t 'O' then tagsToEntitiesAux rest (i + 1) none acc
      else if t = ['-'] then tagsToEntitiesAux rest (i + 1) st acc
      else if headIs t 'I' then
        match st with
        | none => none
        | some _ => tagsToEntitiesAux rest (i + 1) st acc
      else if headIs t 'U' then
        tagsToEntitiesAux rest (i + 1) st (acc ++ [(t.drop 2, some i, i)])
      else if headIs t 'B' then tagsToEntitiesAux rest (i + 1) (some i) acc
      else if headIs t 'L' then
        tagsToEntitiesAux rest (i + 1) none (acc ++ [(t.drop 2, st, i)])
      else none := rfl

lemma tagsToEntitiesAux_replicate_O (entity : List Char) :
    ∀ (c : Nat) (rest : List (List Char)) (i : Nat)
      (acc : List (List Char × Option Nat × Nat)),
      tagsToEntitiesAux (List.replicate c (oTagged entity) ++ rest) i none
          acc =
        tagsToEntitiesAux rest (i + c) none acc := by
  intro c
  induction c with
  | zero => intro rest i acc; simp
  | succ c ih =>
      intro rest i acc
      rw [List.replicate_succ, List.cons_append, tagsToEntitiesAux_cons,
        if_pos (by simp [oTagged, headIs]), ih rest (i + 1) acc,
        show i + 1 + c = i + (c + 1) from by omega]

lemma tagsToEntitiesAux_iRun (label : List Char) :
    ∀ (m : Nat) (rest : List (List Char)) (i s : Nat)
      (acc : List (List Char × Option Nat × Nat)),
      tagsToEntitiesAux (List.replicate m (iTag label) ++ rest) i (some s)
          acc =
        tagsToEntitiesAux rest (i + m) (some s) acc := by
  intro m
  induction m with
  | zero => intro rest i s acc; simp
  | succ m ih =>
      intro rest i s acc
      rw [List.replicate_succ, List.cons_append, tagsToEntitiesAux_cons,
        if_neg (by simp [iTag, headIs]), if_neg (by simp [iTag]),
        if_pos (by simp [iTag, headIs])]
      show tagsToEntitiesAux (List.replicate m (iTag label) ++ rest) (i + 1)
          (some s) acc = _
      rw [ih rest (i + 1) s acc, show i + 1 + m = i + (m + 1) from by omega]

lemma tagsToEntitiesAux_block (label : List Char) (a b : Nat) (hab : a ≤ b)
    (rest : List (List Char)) (acc : List (List Char × Option Nat × Nat)) :
    tagsToEntitiesAux (blockTags a b label ++ rest) a none acc =
      tagsToEntitiesAux rest (b + 1) none (acc ++ [(label, some a, b)]) := by
  by_cases hcase : a = b
  · subst hcase
    unfold blockTags
    rw [if_pos rfl, List.singleton_append, tagsToEntitiesAux_cons,
      if_neg (by simp [uTag, headIs]), if_neg (by simp [uTag]),
      if_neg (by simp [uTag, headIs]), if_pos (by simp [uTag, headIs])]
    rfl
  · unfold blockTags
    rw [if_neg hcase, List.cons_append, tagsToEntitiesAux_cons,
      if_neg (by simp [bTag, headIs]), if_neg (by simp [bTag]),
      if_neg (by simp [bTag, headIs]), if_neg (by simp [bTag, headIs]),
      if_pos (by simp [bTag, headIs]), List.append_assoc,
      tagsToEntitiesAux_iRun label (b - a - 1) ([lTag label] ++ rest) (a + 1)
        a acc,
      show a + 1 + (b - a - 1) = b from by omega, List.singleton_append,
      tagsToEntitiesAux_cons,
      if_neg (by simp [lTag, headIs]), if_neg (by simp [lTag]),
      if_neg (by simp [lTag, headIs]), if_neg (by simp [lTag, headIs]),
      if_neg (by simp [lTag, headIs]), if_pos (by simp [lTag, headIs])]
    rfl

lemma tagsToEntitiesAux_buildTags (entity : List Char) (n : Nat) :
    ∀ (spans : List (Nat × Nat × List Char)) (pos : Nat)
      (acc : List (List Char × Option Nat × Nat)),
      List.Chain' (fun x y => x.2.1 < y.1) spans →
      (∀ s ∈ spans, s.1 ≤ s.2.1) →
      (∀ s ∈ spans, pos ≤ s.1) →
      tagsToEntitiesAux (buildTags entity n pos spans) pos none acc =
        some (acc ++ spans.map (fun s => (s.2.2, some s.1, s.2.1))) := by
  intro spans
  induction spans with
  | nil =>
      intro pos acc _ _ _
      rw [buildTags,
        ← List.append_nil (List.replicate (n - pos) (oTagged entity)),
        tagsToEntitiesAux_replicate_O]
      simp [tagsToEntitiesAux]
  | cons s rest ih =>
      intro pos acc hch hab hpos
      rw [buildTags]
      have hs1 := hab s (by simp)
      have hps := hpos s (by simp)
      have hlb := chain'_spans_lb rest s hch
        (fun d hd => hab d (List.mem_cons_of_mem _ hd))
      rw [List.append_assoc, tagsToEntitiesAux_replicate_O,
        show pos + (s.1 - pos) = s.1 from by omega,
        tagsToEntitiesAux_block s.2.2 s.1 s.2.1 hs1,
        ih (s.2.1 + 1) (acc ++ [(s.2.2, some s.1, s.2.1)]) hch.tail
          (fun d hd => hab d (List.mem_cons_of_mem _ hd))
          (fun d hd => by have := hlb d hd; omega)]
      simp

lemma spanOffsets_eq (doc : List SpacyToken) (a b : Nat) (hab : a ≤ b)
    (hb : b < doc.length) :
    spanOffsets doc (some a) b = some (doc[a].idx, doc[b].endIdx) := by
  have ha : a < doc.length := by omega
  have hlen : ((doc.drop a).take (b + 1 - a)).length = b + 1 - a := by
    rw [List.length_take, List.length_drop]
    omega
  have hhead : ((doc.drop a).take (b + 1 - a)).head? = some doc[a] := by
    rw [List.head?_eq_getElem?, List.getElem?_take, if_pos (by omega),
      List.getElem?_drop, show a + 0 = a from rfl,
      List.getElem?_eq_getElem ha]
  have hlast : ((doc.drop a).take (b + 1 - a)).getLast? = some doc[b] := by
    rw [List.getLast?_eq_getElem?, hlen,
      show b + 1 - a - 1 = b - a from by omega, List.getElem?_take,
      if_pos (by omega), List.getElem?_drop,
      show a + (b - a) = b from by omega, List.getElem?_eq_getElem hb]
  unfold spanOffsets
  simp only [Option.getD_some]
  rw [hhead, hlast]

lemma offsetsLoop_cons (doc : List SpacyToken)
    (ent : List Char × Option Nat × Nat)
    (rest : List (List Char × Option Nat × Nat)) :
    offsetsLoop doc (ent :: rest) =
      match spanOffsets doc ent.2.1 ent.2.2 with
      | some p => (offsetsLoop doc rest).map (fun os => (p.1, p.2, ent.1) :: os)
      | none => none := rfl

lemma offsetsLoop_spans (doc : List SpacyToken) :
    ∀ (spans : List (Nat × Nat × List Char)),
      (∀ s ∈ spans, s.1 ≤ s.2.1 ∧ s.2.1 < doc.length) →
      offsetsLoop doc (spans.map (fun s => (s.2.2, some s.1, s.2.1))) =
        some (spansToEntities doc spans) := by
  intro spans
  induction spans with
  | nil => intro h; rfl
  | cons s rest ih =>
      intro h
      have hs := h s (by simp)
      rw [List.map_cons, offsetsLoop_cons]
      dsimp only
      rw [spanOffsets_eq doc s.1 s.2.1 hs.1 hs.2,
        ih (fun d hd => h d (List.mem_cons_of_mem _ hd))]
      simp only [Option.map_some']
      unfold spansToEntities
      rw [List.map_cons,
        List.getD_eq_getElem _ _ (show s.1 < doc.length from by omega),
        List.getD_eq_getElem _ _ hs.2]

/-- **C4.** For every well-formed document and every annotation set that
exactly tiles token boundaries — each span runs from the first character
of a token to the last character of a (later or equal) token, spans are
pairwise disjoint and listed in increasing order — BILOU conversion
round-trips: converting the spans to (entity-qualified) BILOU tags and
those tags back to character offsets reproduces the original
(start, end, tag) spans exactly. -/
theorem bilou_round_trip (doc : List SpacyToken)
    (spans : List (Nat × Nat × List Char)) (entity : List Char)
    (hdoc : DocOk doc) (hspans : SpansOk doc.length spans) :
    offsetsFromBiluoTags doc
        (mappedTags doc (spansToEntities doc spans) entity) =
      some (spansToEntities doc spans) := by
  rw [mappedTags_eq_buildTags doc hdoc spans hspans entity]
  unfold offsetsFromBiluoTags tagsToEntities
  rw [tagsToEntitiesAux_buildTags entity doc.length spans 0 []
    hspans.1 (fun s hs => (hspans.2 s hs).1) (fun s hs => Nat.zero_le _),
    List.nil_append, Option.some_bind]
  exact offsetsLoop_spans doc spans hspans.2

theorem bilou_round_trip_witness :
    offsetsFromBiluoTags docAI
        (mappedTags docAI (spansToEntities docAI [(0, 0, "Task".data)])
          ("Task".data)) =
      some (spansToEntities docAI [(0, 0, "Task".data)]) := by
  have hdoc : DocOk docAI := by
    constructor
    · decide
    · refine List.chain'_cons.mpr ⟨by decide, ?_⟩
      refine List.chain'_cons.mpr ⟨by decide, ?_⟩
      refine List.chain'_cons.mpr ⟨by decide, ?_⟩
      exact List.chain'_singleton _
  have hspans : SpansOk docAI.length [(0, 0, "Task".data)] := by
    constructor
    · exact List.chain'_singleton _
    · decide
  exact bilou_round_trip docAI [(0, 0, "Task".data)] ("Task".data) hdoc hspans

end Parsect
